/-
Verification of the OCR extraction pipeline of `pdf_text_extractor.py`
(class `PDFTextExtractor`) against its natural-language specification.

The Python code is shallowly embedded: pure helpers become Lean functions on
`String`/`List Char`; Python `float` arithmetic on small rationals is modelled
exactly in `ℚ` (all comparisons the code performs are between rationals with
tiny denominators, where IEEE double arithmetic agrees with exact rational
arithmetic); fallible external calls (image transforms, the OCR engine, PDF
decoding) are modelled as `Except`/`Option`-valued parameters.
-/
import Mathlib

/-! ## Python string primitives -/

/-- The characters Python's `str.strip()` removes (ASCII whitespace). -/
def pyWhitespace (c : Char) : Bool :=
  c = ' ' ∨ c = '\t' ∨ c = '\n' ∨ c = '\r' ∨ c = '\x0b' ∨ c = '\x0c'

/-- Python `text.strip()` (ASCII whitespace; the texts this development
evaluates concretely contain only ASCII whitespace). -/
def pyStrip (s : String) : String :=
  String.mk (((s.data.dropWhile pyWhitespace).reverse.dropWhile pyWhitespace).reverse)

/-- Python `str.lower()`, restricted to ASCII case mapping. -/
def pyLower (s : String) : String := String.mk (s.data.map Char.toLower)

/-! ## `_are_similar_words` (pdf_text_extractor.py lines 875-890) -/

/-- Embeds `sum(1 for i, c in enumerate(word1) if i < len(word2) and c == word2[i])`:
the number of position-aligned equal characters of the two words. -/
def commonChars (w1 w2 : List Char) : Nat :=
  (w1.zip w2).countP (fun p => p.1 == p.2)

/-- Embeds `_are_similar_words(word1, word2)`.  The Python float test
`common_chars / max(len1, len2) > 0.8` is modelled as the exact rational
comparison, which agrees with the IEEE double computation at these sizes. -/
def are_similar_words (word1 word2 : String) : Bool :=
  if 2 < ((word1.length : Int) - (word2.length : Int)).natAbs then false
  else if word1 = word2 then true
  else decide ((0.8 : ℚ) < (commonChars word1.data word2.data : ℚ) / (max word1.length word2.length : ℚ))

/-! ## `_deduplicate_words_with_frequency` (lines 847-873)

`collections.Counter` preserves first-occurrence insertion order of its keys,
and `most_common()` is a stable sort of its items by descending count.  The
Python working set `cleaned_words` is modelled as a list in insertion order;
the only place iteration order of the set could matter is the choice of which
similar accepted word triggers the `break`, and the branch taken there does
not depend on that choice in any execution (see `dedup_fold_pairwise`). -/

/-- The distinct members of `ws` in order of first occurrence
(the key order of `collections.Counter(ws)`). -/
def firstOccurrences : List String → List String
  | [] => []
  | w :: ws => w :: (firstOccurrences ws).filter (fun x => x != w)

/-- Embeds `Counter(words).items()` in key-insertion order. -/
def counterItems (ws : List String) : List (String × Nat) :=
  (firstOccurrences ws).map (fun w => (w, ws.count w))

/-- Stable descending insertion by count: the new item goes after every item
of greater-or-equal count. -/
def insertDesc (p : String × Nat) : List (String × Nat) → List (String × Nat)
  | [] => [p]
  | q :: rest => if p.2 ≤ q.2 then q :: insertDesc p rest else p :: q :: rest

/-- Embeds `Counter.most_common()`: stable sort of the items by descending count. -/
def sortByCountDesc (l : List (String × Nat)) : List (String × Nat) :=
  l.foldl (fun acc p => insertDesc p acc) []

/-- One iteration of the outer loop of `_deduplicate_words_with_frequency`:
scan the accepted set for the first word similar to the candidate; if none,
accept the candidate; otherwise replace that word when the candidate's count
is strictly larger, else drop the candidate. -/
def dedupStep (ws : List String) (cleaned : List String) (p : String × Nat) : List String :=
  match cleaned.find? (fun ex => are_similar_words p.1 ex) with
  | none => cleaned ++ [p.1]
  | some ex => if ws.count ex < p.2 then (cleaned.erase ex) ++ [p.1] else cleaned

/-- Embeds `_deduplicate_words_with_frequency(words)`. -/
def deduplicate_words_with_frequency (ws : List String) : List String :=
  (sortByCountDesc (counterItems ws)).foldl (dedupStep ws) []

/-! ## Helper lemmas on the similarity predicate -/

theorem commonChars_comm (w1 w2 : List Char) : commonChars w1 w2 = commonChars w2 w1 := by
  induction w1 generalizing w2 with
  | nil => cases w2 <;> rfl
  | cons a l1 ih =>
    cases w2 with
    | nil => rfl
    | cons b l2 =>
      have hih := ih l2
      simp only [commonChars, List.zip_cons_cons, List.countP_cons] at hih ⊢
      rw [hih]
      have hab : (a == b) = (b == a) := by
        by_cases h : a = b
        · subst h; rfl
        · have h' : ¬ (b = a) := fun hh => h hh.symm
          simp [h, h']
      rw [hab]

theorem are_similar_words_comm (a b : String) :
    are_similar_words a b = are_similar_words b a := by
  unfold are_similar_words
  have habs : ((a.length : Int) - (b.length : Int)).natAbs
      = ((b.length : Int) - (a.length : Int)).natAbs := by
    rw [← Int.natAbs_neg, neg_sub]
  rw [habs]
  by_cases h1 : 2 < ((b.length : Int) - (a.length : Int)).natAbs
  · simp [h1]
  · by_cases h2 : a = b
    · subst h2; simp
    · have h2' : ¬ (b = a) := fun h => h2 h.symm
      simp only [if_neg h1, if_neg h2, if_neg h2', commonChars_comm, max_comm]

/-- A word is always similar to itself. -/
theorem are_similar_words_refl (a : String) : are_similar_words a a = true := by
  unfold are_similar_words
  simp

theorem ne_of_not_similar {a b : String} (h : are_similar_words a b = false) : a ≠ b := by
  intro hab
  subst hab
  rw [are_similar_words_refl a] at h
  exact Bool.noConfusion h

/-- The Python float test `c / m > 0.8` as an exact integer inequality
(`m > 0`). -/
theorem similar_frac_iff (c m : Nat) (hm : 0 < m) :
    ((0.8 : ℚ) < (c : ℚ) / (m : ℚ)) ↔ 4 * m < 5 * c := by
  have hm' : (0 : ℚ) < m := by exact_mod_cast hm
  rw [lt_div_iff₀ hm']
  constructor
  · intro h
    have h5 : (4 * m : ℚ) < 5 * c := by nlinarith
    exact_mod_cast h5
  · intro h
    have h5 : (4 * m : ℚ) < 5 * c := by exact_mod_cast h
    nlinarith

/-- Embeds `_are_similar_words` rephrased with integer arithmetic only, so that
concrete instances can be settled by `decide`. -/
def are_similar_words_nat (word1 word2 : String) : Bool :=
  if 2 < ((word1.length : Int) - (word2.length : Int)).natAbs then false
  else if word1 = word2 then true
  else decide (4 * max word1.length word2.length < 5 * commonChars word1.data word2.data)

theorem are_similar_words_eq_nat (a b : String) :
    are_similar_words a b = are_similar_words_nat a b := by
  unfold are_similar_words are_similar_words_nat
  by_cases h1 : 2 < ((a.length : Int) - (b.length : Int)).natAbs
  · simp [h1]
  · by_cases h2 : a = b
    · simp [h2]
    · rw [if_neg h1, if_neg h1, if_neg h2, if_neg h2]
      have hm : 0 < max a.length b.length := by
        rcases Nat.eq_zero_or_pos (max a.length b.length) with hz | hp
        · exfalso
          have ha : a.length = 0 := Nat.le_zero.mp (hz ▸ Nat.le_max_left _ _)
          have hb : b.length = 0 := Nat.le_zero.mp (hz ▸ Nat.le_max_right _ _)
          have ha' : a.data = [] := List.length_eq_zero.mp ha
          have hb' : b.data = [] := List.length_eq_zero.mp hb
          exact h2 (by cases a; cases b; simp_all)
        · exact hp
      rw [decide_eq_decide]
      have hcast : ((max a.length b.length : Nat) : ℚ) = (a.length : ℚ) ⊔ (b.length : ℚ) := by
        push_cast [Nat.cast_max]
        rfl
      rw [← hcast]
      exact similar_frac_iff _ _ hm

/-! ## Structure of the deduplicated list -/

theorem mem_insertDesc {q p : String × Nat} {l : List (String × Nat)} :
    q ∈ insertDesc p l ↔ q = p ∨ q ∈ l := by
  induction l with
  | nil => simp [insertDesc]
  | cons r rest ih =>
    unfold insertDesc
    by_cases h : p.2 ≤ r.2
    · rw [if_pos h]
      simp only [List.mem_cons, ih]
      tauto
    · rw [if_neg h]
      simp only [List.mem_cons]

theorem insertDesc_sorted {p : String × Nat} {l : List (String × Nat)}
    (hl : l.Pairwise (fun a b => b.2 ≤ a.2)) :
    (insertDesc p l).Pairwise (fun a b => b.2 ≤ a.2) := by
  induction l with
  | nil => simp [insertDesc]
  | cons r rest ih =>
    rw [List.pairwise_cons] at hl
    unfold insertDesc
    by_cases h : p.2 ≤ r.2
    · rw [if_pos h, List.pairwise_cons]
      refine ⟨?_, ih hl.2⟩
      intro q hq
      rcases mem_insertDesc.mp hq with rfl | hq'
      · exact h
      · exact hl.1 q hq'
    · rw [if_neg h, List.pairwise_cons]
      refine ⟨?_, List.pairwise_cons.mpr hl⟩
      intro q hq
      rcases List.mem_cons.mp hq with rfl | hq'
      · exact Nat.le_of_lt (Nat.lt_of_not_le h)
      · exact Nat.le_trans (hl.1 q hq') (Nat.le_of_lt (Nat.lt_of_not_le h))

theorem sortByCountDesc_sorted (l : List (String × Nat)) :
    (sortByCountDesc l).Pairwise (fun a b => b.2 ≤ a.2) := by
  unfold sortByCountDesc
  suffices h : ∀ acc : List (String × Nat), acc.Pairwise (fun a b => b.2 ≤ a.2) →
      (l.foldl (fun acc p => insertDesc p acc) acc).Pairwise (fun a b => b.2 ≤ a.2) by
    exact h [] (by simp)
  induction l with
  | nil => intro acc h; simpa using h
  | cons p rest ih => intro acc h; exact ih _ (insertDesc_sorted h)

theorem mem_sortByCountDesc {q : String × Nat} {l : List (String × Nat)} :
    q ∈ sortByCountDesc l ↔ q ∈ l := by
  unfold sortByCountDesc
  suffices h : ∀ acc : List (String × Nat),
      (q ∈ l.foldl (fun acc p => insertDesc p acc) acc ↔ q ∈ acc ∨ q ∈ l) by
    simpa using h []
  induction l with
  | nil => intro acc; simp
  | cons p rest ih =>
    intro acc
    rw [List.foldl_cons, ih (insertDesc p acc)]
    rw [mem_insertDesc]
    simp only [List.mem_cons]
    tauto

theorem counterItems_count {ws : List String} {p : String × Nat}
    (h : p ∈ counterItems ws) : p.2 = ws.count p.1 := by
  unfold counterItems at h
  rw [List.mem_map] at h
  obtain ⟨w, _, rfl⟩ := h
  rfl

/-- The items of `most_common()` are processed in non-increasing count order,
so the `count > word_counts.get(existing_word, 0)` branch of the loop never
fires: the fold only ever accepts or drops, and the accepted set stays
pairwise non-similar. -/
theorem dedup_fold_pairwise (ws : List String) (items : List (String × Nat)) :
    ∀ cleaned : List String,
    items.Pairwise (fun a b => b.2 ≤ a.2) →
    (∀ p ∈ items, p.2 = ws.count p.1) →
    (∀ ex ∈ cleaned, ∀ p ∈ items, p.2 ≤ ws.count ex) →
    cleaned.Pairwise (fun a b => are_similar_words a b = false) →
    (items.foldl (dedupStep ws) cleaned).Pairwise (fun a b => are_similar_words a b = false) := by
  induction items with
  | nil => intro cleaned _ _ _ hpw; simpa using hpw
  | cons p rest ih =>
    intro cleaned hsort hcount hbound hpw
    rw [List.foldl_cons]
    rw [List.pairwise_cons] at hsort
    cases hfind : cleaned.find? (fun ex => are_similar_words p.1 ex) with
    | some ex =>
      have hmem : ex ∈ cleaned := List.mem_of_find?_eq_some hfind
      have hle : p.2 ≤ ws.count ex := hbound ex hmem p (List.mem_cons_self _ _)
      have hstep : dedupStep ws cleaned p = cleaned := by
        unfold dedupStep
        rw [hfind]
        exact if_neg (Nat.not_lt.mpr hle)
      rw [hstep]
      refine ih cleaned hsort.2 (fun q hq => hcount q (List.mem_cons_of_mem _ hq)) ?_ hpw
      intro ex' hex' q hq
      exact Nat.le_trans (hsort.1 q hq) (hbound ex' hex' p (List.mem_cons_self _ _))
    | none =>
      have hnone : ∀ ex ∈ cleaned, are_similar_words p.1 ex = false := by
        intro ex hex
        have h := List.find?_eq_none.mp hfind ex hex
        exact Bool.not_eq_true _ ▸ Bool.eq_false_iff.mpr (fun habs => h habs)
      have hstep : dedupStep ws cleaned p = cleaned ++ [p.1] := by
        unfold dedupStep
        rw [hfind]
      rw [hstep]
      refine ih (cleaned ++ [p.1]) hsort.2 (fun q hq => hcount q (List.mem_cons_of_mem _ hq)) ?_ ?_
      · intro ex hex q hq
        rcases List.mem_append.mp hex with hex' | hex'
        · exact Nat.le_trans (hsort.1 q hq) (hbound ex hex' p (List.mem_cons_self _ _))
        · have hw : ex = p.1 := by simpa using hex'
          have hc : p.2 = ws.count p.1 := hcount p (List.mem_cons_self _ _)
          rw [hw, ← hc]
          exact hsort.1 q hq
      · rw [List.pairwise_append]
        refine ⟨hpw, List.pairwise_singleton _ _, ?_⟩
        intro a ha b hb
        have hb' : b = p.1 := by simpa using hb
        rw [hb', are_similar_words_comm]
        exact hnone a ha

/-- The result of `_deduplicate_words_with_frequency` contains no two similar
words. -/
theorem dedup_pairwise (ws : List String) :
    (deduplicate_words_with_frequency ws).Pairwise
      (fun a b => are_similar_words a b = false) := by
  unfold deduplicate_words_with_frequency
  refine dedup_fold_pairwise ws _ [] (sortByCountDesc_sorted _) ?_ ?_ (by simp)
  · intro q hq
    exact counterItems_count (mem_sortByCountDesc.mp hq)
  · intro ex hex
    simp at hex

/-- The result of `_deduplicate_words_with_frequency` has no duplicates. -/
theorem dedup_nodup (ws : List String) :
    (deduplicate_words_with_frequency ws).Nodup :=
  (dedup_pairwise ws).imp (fun h => ne_of_not_similar h)

theorem firstOccurrences_of_nodup {l : List String} (h : l.Nodup) :
    firstOccurrences l = l := by
  induction l with
  | nil => rfl
  | cons w ws ih =>
    rw [List.nodup_cons] at h
    unfold firstOccurrences
    rw [ih h.2]
    congr 1
    refine List.filter_eq_self.mpr ?_
    intro x hx
    simp only [bne_iff_ne, ne_eq, decide_eq_true_eq]
    exact fun hxw => h.1 (hxw ▸ hx)

theorem counterItems_of_nodup {l : List String} (h : l.Nodup) :
    counterItems l = l.map (fun w => (w, 1)) := by
  unfold counterItems
  rw [firstOccurrences_of_nodup h]
  refine List.map_congr_left ?_
  intro w hw
  rw [List.count_eq_one_of_mem h hw]

theorem insertDesc_of_ones {p : String × Nat} {l : List (String × Nat)}
    (hp : p.2 = 1) (hl : ∀ q ∈ l, q.2 = 1) : insertDesc p l = l ++ [p] := by
  induction l with
  | nil => rfl
  | cons r rest ih =>
    unfold insertDesc
    have h1 : p.2 ≤ r.2 := by
      rw [hp, hl r (List.mem_cons_self _ _)]
    rw [if_pos h1, ih (fun q hq => hl q (List.mem_cons_of_mem _ hq))]
    rfl

theorem foldl_insertDesc_of_ones (l : List (String × Nat)) :
    ∀ acc : List (String × Nat), (∀ q ∈ l, q.2 = 1) → (∀ q ∈ acc, q.2 = 1) →
    l.foldl (fun acc p => insertDesc p acc) acc = acc ++ l := by
  induction l with
  | nil => intro acc _ _; simp
  | cons p rest ih =>
    intro acc hl hacc
    rw [List.foldl_cons, insertDesc_of_ones (hl p (List.mem_cons_self _ _)) hacc]
    rw [ih (acc ++ [p]) (fun q hq => hl q (List.mem_cons_of_mem _ hq)) ?_]
    · rw [List.append_assoc]
      rfl
    · intro q hq
      rcases List.mem_append.mp hq with hq' | hq'
      · exact hacc q hq'
      · have : q = p := by simpa using hq'
        rw [this]
        exact hl p (List.mem_cons_self _ _)

/-- The sort of `most_common()` is the identity on a list of distinct words that all
occur once. -/
theorem sortByCountDesc_of_ones {l : List (String × Nat)}
    (hl : ∀ q ∈ l, q.2 = 1) : sortByCountDesc l = l := by
  unfold sortByCountDesc
  rw [foldl_insertDesc_of_ones l [] hl (by simp)]
  rfl

/-- Folding the merge loop over pairwise non-similar single-occurrence words
accepts every word. -/
theorem dedup_fold_of_pairwise (ws : List String) (l : List String) :
    ∀ cleaned : List String,
    (cleaned ++ l).Pairwise (fun a b => are_similar_words a b = false) →
    (l.map (fun w => (w, 1))).foldl (dedupStep ws) cleaned = cleaned ++ l := by
  induction l with
  | nil => intro cleaned _; simp
  | cons w rest ih =>
    intro cleaned hpw
    rw [List.map_cons, List.foldl_cons]
    have hsim : ∀ ex ∈ cleaned, are_similar_words w ex = false := by
      intro ex hex
      have h := (List.pairwise_append.mp hpw).2.2 ex hex w (List.mem_cons_self _ _)
      rw [are_similar_words_comm]
      exact h
    have hfind : cleaned.find? (fun ex => are_similar_words w ex) = none := by
      refine List.find?_eq_none.mpr ?_
      intro ex hex habs
      rw [hsim ex hex] at habs
      exact Bool.noConfusion habs
    have hstep : dedupStep ws cleaned (w, 1) = cleaned ++ [w] := by
      unfold dedupStep
      rw [hfind]
    rw [hstep]
    rw [ih (cleaned ++ [w]) (by rw [List.append_assoc]; simpa using hpw)]
    rw [List.append_assoc]
    rfl

/-- Full trace of `_deduplicate_words_with_frequency` on the spec §8 example
input `["nation", "naton", "naton", "naton"]`: `"nation"` and `"naton"` share
only 3 position-aligned characters out of `max` length 6 (0.5, not above the
0.8 threshold), so no merge fires and both words survive. -/
theorem dedup_nation_naton :
    deduplicate_words_with_frequency ["nation", "naton", "naton", "naton"]
      = ["naton", "nation"] := by
  have hsim : are_similar_words "nation" "naton" = false := by
    rw [are_similar_words_eq_nat]
    decide
  unfold deduplicate_words_with_frequency
  rw [show sortByCountDesc (counterItems ["nation", "naton", "naton", "naton"])
      = [("naton", 3), ("nation", 1)] from by decide]
  rw [List.foldl_cons, List.foldl_cons, List.foldl_nil]
  have h1 : dedupStep ["nation", "naton", "naton", "naton"] [] ("naton", 3)
      = ["naton"] := rfl
  rw [h1]
  have hfind : List.find? (fun ex => are_similar_words "nation" ex) ["naton"] = none := by
    rw [List.find?_cons_of_neg, List.find?_nil]
    simp [hsim]
  unfold dedupStep
  rw [hfind]
  rfl

/-- C1: the claim predicts that on input {"nation" ×1, "naton" ×3} the two
surface forms are merged (similar, frequency favors "naton") and only
"naton" survives.  On the code this is false: `_are_similar_words("nation",
"naton")` returns `False` (3 aligned matches / 6 = 0.5 ≤ 0.8), so `"nation"`
is also in the deduplicated result. -/
theorem claim_C1_counterexample :
    are_similar_words "nation" "naton" = false ∧
    "nation" ∈ deduplicate_words_with_frequency ["nation", "naton", "naton", "naton"] := by
  constructor
  · rw [are_similar_words_eq_nat]
    decide
  · rw [dedup_nation_naton]
    simp

/-- C1 (amended): on input {"nation" ×1, "naton" ×3} the two surface forms
are NOT similar under the §4.6 predicate (aligned-match fraction 3/6 does not
exceed 0.8), so no merge occurs and the deduplication keeps both "naton" and
"nation". -/
theorem claim_C1_amended :
    deduplicate_words_with_frequency ["nation", "naton", "naton", "naton"]
      = ["naton", "nation"] ∧
    are_similar_words "naton" "nation" = false := by
  refine ⟨dedup_nation_naton, ?_⟩
  rw [are_similar_words_eq_nat]
  decide

/-- C6: the frequency-aware deduplication is idempotent — running it again on
its own output (whose words are pairwise non-similar and each occur once)
returns the output unchanged, with no further merges possible. -/
theorem claim_C6_dedup_idempotent (ws : List String) :
    deduplicate_words_with_frequency (deduplicate_words_with_frequency ws)
      = deduplicate_words_with_frequency ws := by
  generalize hgen : deduplicate_words_with_frequency ws = l
  have hnd : l.Nodup := hgen ▸ dedup_nodup ws
  have hpw : l.Pairwise (fun a b => are_similar_words a b = false) :=
    hgen ▸ dedup_pairwise ws
  show deduplicate_words_with_frequency l = l
  unfold deduplicate_words_with_frequency
  rw [counterItems_of_nodup hnd]
  rw [sortByCountDesc_of_ones (fun q hq => by
    rw [List.mem_map] at hq
    obtain ⟨w, _, rfl⟩ := hq
    rfl)]
  have h := dedup_fold_of_pairwise l l [] (by simpa using hpw)
  simpa using h

/-- C10: `_are_similar_words` is symmetric — the position-aligned match count
and the `max`-length denominator are invariant under swapping the two
arguments. -/
theorem claim_C10_similarity_symmetric (a b : String) :
    are_similar_words a b = are_similar_words b a :=
  are_similar_words_comm a b

/-! ## `_estimate_ocr_confidence` (lines 238-275) -/

/-- A regex word character (`\w`) for the `\b` boundaries of the patterns the
code matches, restricted to ASCII (Python's `\w` is Unicode-wide; the
boundary characters of all texts this development reasons about are ASCII). -/
def isWordChar (c : Char) : Bool := c.isAlphanum || c = '_'

/-- Scanner for `re.findall(r'\b[a-zA-Z]{2,}\b', text)`: collects the maximal
ASCII-letter runs of length ≥ 2 whose neighbouring characters (when present)
are not word characters.  `prevIsWord` records whether the previously scanned
character was a word character, `leftOk` whether the current run began at a
word boundary, `run` holds the current letter run in reverse. -/
def findWordsAux : (prevIsWord : Bool) → (leftOk : Bool) → (run : List Char) →
    List Char → List (List Char)
  | _, leftOk, run, [] => if leftOk ∧ 2 ≤ run.length then [run.reverse] else []
  | prevIsWord, leftOk, run, c :: rest =>
    if c.isAlpha then
      if run.isEmpty then findWordsAux true (!prevIsWord) [c] rest
      else findWordsAux true leftOk (c :: run) rest
    else
      (if leftOk ∧ ¬ isWordChar c ∧ 2 ≤ run.length then [run.reverse] else [])
        ++ findWordsAux (isWordChar c) false [] rest

/-- Embeds `re.findall(r'\b[a-zA-Z]{2,}\b', text)` over the text's characters. -/
def findAlphaWords (cs : List Char) : List (List Char) :=
  findWordsAux false true [] cs

/-- The punctuation class `[.,!?;:]` of the confidence estimator. -/
def punctChars : List Char := ['.', ',', '!', '?', ';', ':']

/-- Embeds `_estimate_ocr_confidence(text)`: the weighted-sum confidence score of a
raw OCR text.  Note `total_chars` is `len(text.replace(' ', '').replace('\n',
''))` — only spaces and newlines are removed, not all whitespace — and the
whole computation is skipped (score 0) when `text.strip()` is empty. -/
def estimate_ocr_confidence (text : String) : ℚ :=
  if pyStrip text = "" then 0
  else
    let english_chars : Nat := text.data.countP (fun c => c.isAlpha)
    let total_chars : Nat := (text.data.filter (fun c => ¬ (c = ' ' ∨ c = '\n'))).length
    let s1 : ℚ := if 0 < total_chars then ((english_chars : ℚ) / (total_chars : ℚ)) * 0.4 else 0
    let words := findAlphaWords text.data
    let valid_words : Nat := words.countP (fun w => decide (2 ≤ w.length) && w.all Char.isAlpha)
    let s2 : ℚ := if words ≠ [] then ((valid_words : ℚ) / (words.length : ℚ)) * 0.3 else 0
    let s3 : ℚ := min ((text.length : ℚ) / 100) 1 * 0.2
    let special_frac : ℚ :=
      (text.data.countP (fun c => punctChars.contains c) : ℚ) / (max text.length 1 : ℚ)
    let s4 : ℚ := if 0.01 ≤ special_frac ∧ special_frac ≤ 0.1 then 0.1 else 0
    min (s1 + s2 + s3 + s4) 1

/-- The §4.2 confidence formula exactly as the spec words it (for claim C5):
a weighted sum whose first denominator is the *non-whitespace* character
count, applied to any text and clamped to [0, 1]; divisions by zero
contribute 0 (`ℚ` convention). -/
def spec_confidence (text : String) : ℚ :=
  let ascii_alpha : Nat := text.data.countP (fun c => c.isAlpha)
  let non_ws : Nat := (text.data.filter (fun c => ¬ pyWhitespace c)).length
  let t1 : ℚ := 0.4 * ((ascii_alpha : ℚ) / (non_ws : ℚ))
  let words := findAlphaWords text.data
  let valid : Nat := words.countP (fun w => decide (2 ≤ w.length) && w.all Char.isAlpha)
  let t2 : ℚ := 0.3 * ((valid : ℚ) / (words.length : ℚ))
  let t3 : ℚ := 0.2 * min ((text.length : ℚ) / 100) 1
  let pfrac : ℚ :=
    (text.data.countP (fun c => punctChars.contains c) : ℚ) / (max text.length 1 : ℚ)
  let t4 : ℚ := if 0.01 ≤ pfrac ∧ pfrac ≤ 0.1 then 0.1 else 0
  min (max (t1 + t2 + t3 + t4) 0) 1

/-- Claim C5 amended: the same closed formula but with the denominator the
code actually uses — the count of characters other than `' '` and `'\n'` —
restricted to texts whose strip is non-empty. -/
def amended_confidence (text : String) : ℚ :=
  let ascii_alpha : Nat := text.data.countP (fun c => c.isAlpha)
  let denom : Nat := (text.data.filter (fun c => ¬ (c = ' ' ∨ c = '\n'))).length
  let t1 : ℚ := 0.4 * ((ascii_alpha : ℚ) / (denom : ℚ))
  let words := findAlphaWords text.data
  let valid : Nat := words.countP (fun w => decide (2 ≤ w.length) && w.all Char.isAlpha)
  let t2 : ℚ := 0.3 * ((valid : ℚ) / (words.length : ℚ))
  let t3 : ℚ := 0.2 * min ((text.length : ℚ) / 100) 1
  let pfrac : ℚ :=
    (text.data.countP (fun c => punctChars.contains c) : ℚ) / (max text.length 1 : ℚ)
  let t4 : ℚ := if 0.01 ≤ pfrac ∧ pfrac ≤ 0.1 then 0.1 else 0
  min (max (t1 + t2 + t3 + t4) 0) 1

/-- C4: for every input text the estimated confidence lies in [0, 1]. -/
theorem claim_C4_confidence_in_unit_interval (text : String) :
    0 ≤ estimate_ocr_confidence text ∧ estimate_ocr_confidence text ≤ 1 := by
  unfold estimate_ocr_confidence
  by_cases h : pyStrip text = ""
  · rw [if_pos h]
    norm_num
  · rw [if_neg h]
    refine ⟨le_min ?_ zero_le_one, min_le_right _ _⟩
    split_ifs <;> positivity

/-- Evaluation of the code's score on `"a\t"` (one letter, one tab):
the tab survives the `replace(' ','').replace('\n','')` denominator, so the
first term is (1/2)·0.4 rather than the spec's (1/1)·0.4. -/
theorem estimate_ocr_confidence_tab :
    estimate_ocr_confidence "a\t" = 51 / 250 := by
  have h1 : ("a\t").data.countP (fun c => c.isAlpha) = 1 := by decide
  have h2 : (("a\t").data.filter (fun c => ¬ (c = ' ' ∨ c = '\n'))).length = 2 := by decide
  have h3 : findAlphaWords ("a\t").data = [] := by decide
  have h4 : ("a\t").length = 2 := by decide
  have h5 : ("a\t").data.countP (fun c => punctChars.contains c) = 0 := by decide
  unfold estimate_ocr_confidence
  rw [if_neg (by decide), h1, h2, h3, h4, h5]
  norm_num [min_def]

/-- Evaluation of the spec §4.2 formula on `"a\t"`. -/
theorem spec_confidence_tab : spec_confidence "a\t" = 101 / 250 := by
  have h1 : ("a\t").data.countP (fun c => c.isAlpha) = 1 := by decide
  have h2 : (("a\t").data.filter (fun c => ¬ pyWhitespace c)).length = 1 := by decide
  have h3 : findAlphaWords ("a\t").data = [] := by decide
  have h4 : ("a\t").length = 2 := by decide
  have h5 : ("a\t").data.countP (fun c => punctChars.contains c) = 0 := by decide
  unfold spec_confidence
  rw [h1, h2, h3, h4, h5]
  norm_num [min_def, max_def]

/-- Evaluation of the code's score on the non-empty text `" "`:
`text.strip()` is empty, so the code returns 0. -/
theorem estimate_ocr_confidence_space : estimate_ocr_confidence " " = 0 := by
  unfold estimate_ocr_confidence
  rw [if_pos (by decide)]

/-- Evaluation of the spec §4.2 formula on `" "`: the length term still
contributes 0.2·min(1/100, 1) = 1/500. -/
theorem spec_confidence_space : spec_confidence " " = 1 / 500 := by
  have h1 : (" ").data.countP (fun c => c.isAlpha) = 0 := by decide
  have h2 : ((" ").data.filter (fun c => ¬ pyWhitespace c)).length = 0 := by decide
  have h3 : findAlphaWords (" ").data = [] := by decide
  have h4 : (" ").length = 1 := by decide
  have h5 : (" ").data.countP (fun c => punctChars.contains c) = 0 := by decide
  unfold spec_confidence
  rw [h1, h2, h3, h4, h5]
  norm_num [min_def, max_def]

/-- C5: the claim's formula (ASCII-alphabetic count over *non-whitespace*
count, applied to every non-empty text) disagrees with the code at the
non-empty texts `"a\t"` (the code's denominator keeps the tab: 51/250 vs
101/250) and `" "` (the code's strip guard returns 0, the formula 1/500). -/
theorem claim_C5_counterexample :
    estimate_ocr_confidence "a\t" ≠ spec_confidence "a\t" ∧
    estimate_ocr_confidence " " ≠ spec_confidence " " := by
  rw [estimate_ocr_confidence_tab, spec_confidence_tab,
    estimate_ocr_confidence_space, spec_confidence_space]
  norm_num

/-- C5 (amended): for every text whose `strip()` is non-empty, the code's
score equals the clamp to [0, 1] of the weighted sum with the denominator
"characters other than space and newline" (and division-by-zero convention
0); whitespace-only texts score 0 via the strip guard. -/
theorem claim_C5_amended (text : String) (h : pyStrip text ≠ "") :
    estimate_ocr_confidence text = amended_confidence text := by
  unfold estimate_ocr_confidence amended_confidence
  rw [if_neg h]
  dsimp only
  have hs1 : ∀ e t : Nat,
      (if 0 < t then ((e : ℚ) / (t : ℚ)) * 0.4 else 0) = 0.4 * ((e : ℚ) / (t : ℚ)) := by
    intro e t
    rcases Nat.eq_zero_or_pos t with rfl | ht
    · norm_num
    · rw [if_pos ht, mul_comm]
  have hs2 : ∀ (ws : List (List Char)) (v : Nat),
      (if ws ≠ [] then ((v : ℚ) / (ws.length : ℚ)) * 0.3 else 0)
        = 0.3 * ((v : ℚ) / (ws.length : ℚ)) := by
    intro ws v
    rcases ws with _ | ⟨w, ws'⟩
    · norm_num
    · rw [if_pos (by simp), mul_comm]
  rw [hs1, hs2, mul_comm (min ((text.length : ℚ) / 100) 1) 0.2]
  have hnn : (0 : ℚ) ≤ 0.4 * ((text.data.countP (fun c => c.isAlpha) : ℚ) /
        (((text.data.filter (fun c => ¬ (c = ' ' ∨ c = '\n'))).length : ℚ)))
      + 0.3 * (((findAlphaWords text.data).countP
          (fun w => decide (2 ≤ w.length) && w.all Char.isAlpha) : ℚ) /
        ((findAlphaWords text.data).length : ℚ))
      + 0.2 * min ((text.length : ℚ) / 100) 1
      + (if 0.01 ≤ (text.data.countP (fun c => punctChars.contains c) : ℚ) /
            (max text.length 1 : ℚ) ∧
          (text.data.countP (fun c => punctChars.contains c) : ℚ) /
            (max text.length 1 : ℚ) ≤ 0.1 then 0.1 else 0) := by
    split_ifs <;> positivity
  rw [max_eq_left hnn]

/-- Witness for `claim_C5_amended` at the concrete text `"ab."`. -/
theorem claim_C5_amended_witness :
    pyStrip "ab." ≠ "" ∧ estimate_ocr_confidence "ab." = amended_confidence "ab." :=
  ⟨by decide, claim_C5_amended "ab." (by decide)⟩

/-! ## `is_english_text` (lines 319-381) -/

/-- The code points of the reject class
`[぀-ゟ゠-ヿ一-龯]` (hiragana, katakana, CJK unified
ideographs). -/
def isCJKChar (c : Char) : Bool :=
  (0x3040 ≤ c.toNat ∧ c.toNat ≤ 0x309F) ∨ (0x30A0 ≤ c.toNat ∧ c.toNat ≤ 0x30FF)
    ∨ (0x4E00 ≤ c.toNat ∧ c.toNat ≤ 0x9FAF)

/-- Whether `re.search(r'[぀-ゟ゠-ヿ一-龯]', text)`
succeeds. -/
def hasCJK (text : String) : Bool := text.data.any isCJKChar

/-- The character class of `^[\d\s\+\-\*\/\=\(\)\[\]]+$` (ASCII reading of
`\d` and `\s`). -/
def isMathSymbolChar (c : Char) : Bool :=
  c.isDigit || pyWhitespace c || c = '+' || c = '-' || c = '*' || c = '/' || c = '=' ||
    c = '(' || c = ')' || c = '[' || c = ']'

/-- Whether `re.match(r'^[\d\s\+\-\*\/\=\(\)\[\]]+$', text.strip())` succeeds: the
stripped text is non-empty and consists only of digits, whitespace and
arithmetic symbols (a stripped text never ends in a newline, so the `$`
convention is immaterial). -/
def isMathOnly (s : String) : Bool := (¬ s.data.isEmpty) && s.data.all isMathSymbolChar

/-- Python's Unicode `str.isalpha()`, modelled on the code points this
development reasons about: ASCII letters and the CJK/kana ranges.  Every
theorem below either rejects before this count is consulted or instantiates
it on ASCII text. -/
def pyIsAlpha (c : Char) : Bool := c.isAlpha || isCJKChar c

/-- Maximal word-character runs of a character list.  A keyword `kw` matches
`\bkw\b` somewhere in the text iff `kw` equals one of these runs. -/
def wordRunsAux : (run : List Char) → List Char → List (List Char)
  | run, [] => if run.isEmpty then [] else [run.reverse]
  | run, c :: rest =>
    if isWordChar c then wordRunsAux (c :: run) rest
    else (if run.isEmpty then [] else [run.reverse]) ++ wordRunsAux [] rest

def wordRuns (cs : List Char) : List (List Char) := wordRunsAux [] cs

/-- The four common-English-function-word alternation groups the code
searches with `re.search(r'\b(...)\b', text.lower())`. -/
def english_patterns : List (List String) :=
  [["the", "and", "or", "but", "in", "on", "at", "to", "for", "of", "with", "by"],
   ["is", "are", "was", "were", "be", "been", "being", "have", "has", "had"],
   ["can", "could", "should", "would", "will", "shall", "may", "might", "must"],
   ["this", "that", "these", "those", "here", "there", "where", "when", "what", "who", "how", "why"]]

/-- Embeds `is_english_text(text)`.  The `langdetect` signal is an external
collaborator passed in as `detectEnglish` (its value models
`detect(text) == 'en'`, with `False` on a detection exception). -/
def is_english_text (detectEnglish : String → Bool) (text : String) : Bool :=
  if pyStrip text = "" then false
  else if hasCJK text then false
  else if isMathOnly (pyStrip text) then false
  else
    let english_chars := text.data.countP (fun c => c.isAlpha)
    let total_alpha := text.data.countP pyIsAlpha
    if total_alpha = 0 then false
    else
      let englishFrac : ℚ := (english_chars : ℚ) / (total_alpha : ℚ)
      if englishFrac < 0.7 then false
      else
        let ws := findAlphaWords (pyLower text).data
        if ws.isEmpty then false
        else
          let pattern_matches := english_patterns.countP
            (fun pat => (wordRuns (pyLower text).data).any (fun r => pat.contains (String.mk r)))
          (decide ((0.8 : ℚ) ≤ englishFrac) && decide (1 ≤ ws.length)) ||
            (decide ((0.7 : ℚ) ≤ englishFrac) && decide (1 ≤ pattern_matches)) ||
            detectEnglish text

/-- C7: any text containing a CJK/kana code point is rejected by the English
filter, whatever the later signals (including the language-identification
collaborator) would say; in particular a pure-CJK string is always
rejected. -/
theorem claim_C7_cjk_hard_reject (detectEnglish : String → Bool) (text : String)
    (h : ∃ c ∈ text.data, isCJKChar c = true) :
    is_english_text detectEnglish text = false := by
  have hcjk : hasCJK text = true := by
    unfold hasCJK
    rw [List.any_eq_true]
    exact h
  unfold is_english_text
  by_cases hstrip : pyStrip text = ""
  · rw [if_pos hstrip]
  · rw [if_neg hstrip, if_pos hcjk]

/-- Witness for `claim_C7_cjk_hard_reject`: a pure-CJK string is rejected
even against an always-English language-identification signal. -/
theorem claim_C7_witness :
    (∃ c ∈ ("日本語の文").data, isCJKChar c = true) ∧
    is_english_text (fun _ => true) "日本語の文" = false :=
  ⟨⟨'日', by decide, by decide⟩,
    claim_C7_cjk_hard_reject (fun _ => true) "日本語の文" ⟨'日', by decide, by decide⟩⟩

/-! ## `preprocess_image` (lines 56-99) and `extract_text_from_image` (lines 186-236) -/

/-- The six image-transform recipes of `preprocess_image`, as fallible
external image operations over an abstract image type `α` (`Except.error`
models a raised exception, `ε` the exception value). -/
structure Recipes (α ε : Type) where
  standardRecipe : α → Except ε α
  contrastRecipe : α → Except ε α
  denoiseRecipe : α → Except ε α
  upscaleRecipe : α → Except ε α
  morphologicalRecipe : α → Except ε α
  adaptiveRecipe : α → Except ε α

/-- Embeds `preprocess_image(image, enhancement_level)`: builds the ordered variant
list (`standard`; plus `contrast, denoise, upscale` for levels standard and
aggressive; plus `morphological, adaptive-threshold` for aggressive).  There
is no per-recipe `try`/`except` in the source, so an exception in any recipe
propagates out of the whole call. -/
def preprocess_image {α ε : Type} (R : Recipes α ε) (img : α) (level : String) :
    Except ε (List α) := do
  let v1 ← R.standardRecipe img
  let base := [v1]
  let withMid ←
    if level = "standard" ∨ level = "aggressive" then do
      let v2 ← R.contrastRecipe img
      let v3 ← R.denoiseRecipe img
      let v4 ← R.upscaleRecipe img
      pure (base ++ [v2, v3, v4])
    else pure base
  if level = "aggressive" then do
    let v5 ← R.morphologicalRecipe img
    let v6 ← R.adaptiveRecipe img
    pure (withMid ++ [v5, v6])
  else pure withMid

/-- One entry of `all_results` in `extract_text_from_image`: the stripped
candidate text together with its confidence, which the code computes on the
unstripped text. -/
structure OCRCandidate where
  text : String
  confidence : ℚ

/-- The candidate list built from the raw OCR outputs of one invocation, in
generation order.  `none` models an OCR call that raised (dropped); outputs
that are empty after `strip()` are skipped. -/
def mkCandidates (outputs : List (Option String)) : List OCRCandidate :=
  outputs.filterMap (fun o => o.bind (fun t =>
    if pyStrip t = "" then none
    else some ⟨pyStrip t, estimate_ocr_confidence t⟩))

/-- Embeds `max(all_results, key=lambda x: x['confidence'])`: Python's `max` scans
left to right and replaces the current best only on a strictly greater key,
so the earliest maximal item wins. -/
def pickBest (c : OCRCandidate) (cs : List OCRCandidate) : OCRCandidate :=
  cs.foldl (fun best x => if best.confidence < x.confidence then x else best) c

/-- The selection step of `extract_text_from_image`: `""` when `all_results`
is empty, otherwise the text of the highest-confidence candidate. -/
def selectBestText : List OCRCandidate → String
  | [] => ""
  | c :: cs => (pickBest c cs).text

/-- The raw OCR outputs of one invocation, in generation order: for each
variant in order, the four Tesseract configurations in order.  `ocrRun v j`
abstracts the engine call on variant `v` with configuration `j`. -/
def ocrAttempts {α : Type} (ocrRun : α → Nat → Option String) (variants : List α) :
    List (Option String) :=
  (variants.map (fun v => (List.range 4).map (fun j => ocrRun v j))).flatten

/-- Embeds `extract_text_from_image(image, enhancement_level)`: generate the
variants, run every (variant, configuration) OCR attempt, keep the non-empty
candidates, return the best text; the outer `try`/`except` maps any
propagated exception — in particular a transform error in
`preprocess_image` — to `""`. -/
def extract_text_from_image {α ε : Type} (R : Recipes α ε)
    (ocrRun : α → Nat → Option String) (img : α) (level : String) : String :=
  match preprocess_image R img level with
  | Except.error _ => ""
  | Except.ok variants => selectBestText (mkCandidates (ocrAttempts ocrRun variants))

/-- Recipes over `Nat` images whose `contrast` transform raises; all other
recipes succeed (used by the C2 theorems). -/
def contrastFailRecipes : Recipes Nat String :=
  ⟨fun _ => Except.ok 1, fun _ => Except.error "contrast failed", fun _ => Except.ok 3,
   fun _ => Except.ok 4, fun _ => Except.ok 5, fun _ => Except.ok 6⟩

/-- C8: when every recipe succeeds, `light` yields exactly the 1 variant
`[standard]`, `standard` exactly the 4 `[standard, contrast, denoise,
upscale]` and `aggressive` exactly the 6 adding `[morphological,
adaptive-threshold]`, in recipe order. -/
theorem claim_C8_variant_counts {α ε : Type} (R : Recipes α ε) (img : α)
    (v1 v2 v3 v4 v5 v6 : α)
    (h1 : R.standardRecipe img = Except.ok v1)
    (h2 : R.contrastRecipe img = Except.ok v2)
    (h3 : R.denoiseRecipe img = Except.ok v3)
    (h4 : R.upscaleRecipe img = Except.ok v4)
    (h5 : R.morphologicalRecipe img = Except.ok v5)
    (h6 : R.adaptiveRecipe img = Except.ok v6) :
    preprocess_image R img "light" = Except.ok [v1] ∧
    preprocess_image R img "standard" = Except.ok [v1, v2, v3, v4] ∧
    preprocess_image R img "aggressive" = Except.ok [v1, v2, v3, v4, v5, v6] := by
  refine ⟨?_, ?_, ?_⟩ <;>
    · simp [preprocess_image, h1, h2, h3, h4, h5, h6, Bind.bind, Except.bind]
      rfl

/-- Witness for `claim_C8_variant_counts` on concrete all-succeeding
recipes. -/
theorem claim_C8_witness :
    preprocess_image (⟨fun _ => Except.ok 1, fun _ => Except.ok 2, fun _ => Except.ok 3,
        fun _ => Except.ok 4, fun _ => Except.ok 5, fun _ => Except.ok 6⟩ :
        Recipes Nat String) 0 "light" = Except.ok [1] ∧
    preprocess_image (⟨fun _ => Except.ok 1, fun _ => Except.ok 2, fun _ => Except.ok 3,
        fun _ => Except.ok 4, fun _ => Except.ok 5, fun _ => Except.ok 6⟩ :
        Recipes Nat String) 0 "standard" = Except.ok [1, 2, 3, 4] ∧
    preprocess_image (⟨fun _ => Except.ok 1, fun _ => Except.ok 2, fun _ => Except.ok 3,
        fun _ => Except.ok 4, fun _ => Except.ok 5, fun _ => Except.ok 6⟩ :
        Recipes Nat String) 0 "aggressive" = Except.ok [1, 2, 3, 4, 5, 6] :=
  claim_C8_variant_counts _ 0 1 2 3 4 5 6 rfl rfl rfl rfl rfl rfl

/-- C2: the claim predicts that when exactly one recipe (here `contrast`)
raises at level `standard`, only that variant is omitted and the remaining
variants `[1, 3, 4]` still yield OCR candidates.  On the code the exception
propagates out of `preprocess_image` — no variant list at all is produced —
and `extract_text_from_image` returns `""` even though the OCR engine would
return good text on every variant whose recipe succeeded. -/
theorem claim_C2_counterexample :
    preprocess_image contrastFailRecipes 0 "standard" = Except.error "contrast failed" ∧
    preprocess_image contrastFailRecipes 0 "standard" ≠ Except.ok [1, 3, 4] ∧
    extract_text_from_image contrastFailRecipes
      (fun _ _ => some "Good, plain english text.") 0 "standard" = "" := by
  refine ⟨rfl, ?_, rfl⟩
  intro h
  rw [show preprocess_image contrastFailRecipes 0 "standard"
      = Except.error "contrast failed" from rfl] at h
  exact Except.noConfusion h

/-- C2 (amended): a transform error is NOT isolated to its variant — when the
`contrast` recipe raises at level `standard` (even with `standard` itself
succeeding), `preprocess_image` propagates the error, and the outer handler
of `extract_text_from_image` returns the empty string for the whole
invocation, so every variant of that page is lost; the failure is non-fatal
only at the page level. -/
theorem claim_C2_amended {α ε : Type} (R : Recipes α ε)
    (ocrRun : α → Nat → Option String) (img : α) (e : ε) (v1 : α)
    (h1 : R.standardRecipe img = Except.ok v1)
    (h2 : R.contrastRecipe img = Except.error e) :
    preprocess_image R img "standard" = Except.error e ∧
    extract_text_from_image R ocrRun img "standard" = "" := by
  have hpre : preprocess_image R img "standard" = Except.error e := by
    simp [preprocess_image, h1, h2, Bind.bind, Except.bind]
  refine ⟨hpre, ?_⟩
  unfold extract_text_from_image
  rw [hpre]

/-- Witness for `claim_C2_amended` on the concrete failing recipes. -/
theorem claim_C2_amended_witness :
    preprocess_image contrastFailRecipes 0 "standard" = Except.error "contrast failed" ∧
    extract_text_from_image contrastFailRecipes
      (fun _ _ => some "Good, plain english text.") 0 "standard" = "" :=
  claim_C2_amended contrastFailRecipes (fun _ _ => some "Good, plain english text.")
    0 "contrast failed" 1 rfl rfl

/-- Python's `max` characterized: `pickBest c cs` is the first element of
`c :: cs` attaining the maximum confidence — every element is bounded by it
and every element strictly before it is strictly below it. -/
theorem pickBest_spec (cs : List OCRCandidate) :
    ∀ c : OCRCandidate, ∃ l₁ b l₂, c :: cs = l₁ ++ b :: l₂ ∧ pickBest c cs = b ∧
      (∀ x ∈ c :: cs, x.confidence ≤ b.confidence) ∧
      (∀ x ∈ l₁, x.confidence < b.confidence) := by
  induction cs with
  | nil =>
    intro c
    refine ⟨[], c, [], rfl, rfl, ?_, by simp⟩
    intro x hx
    have hx' : x = c := by simpa using hx
    rw [hx']
  | cons x rest ih =>
    intro c
    by_cases hcx : c.confidence < x.confidence
    · obtain ⟨l₁, b, l₂, hdec, hfold, hmax, hstrict⟩ := ih x
      have hxb : x.confidence ≤ b.confidence := hmax x (List.mem_cons_self _ _)
      refine ⟨c :: l₁, b, l₂, by rw [List.cons_append, ← hdec], ?_, ?_, ?_⟩
      · unfold pickBest
        rw [List.foldl_cons, if_pos hcx]
        exact hfold
      · intro y hy
        rcases List.mem_cons.mp hy with rfl | hy'
        · exact le_trans (le_of_lt hcx) hxb
        · exact hmax y hy'
      · intro y hy
        rcases List.mem_cons.mp hy with rfl | hy'
        · exact lt_of_lt_of_le hcx hxb
        · exact hstrict y hy'
    · obtain ⟨l₁, b, l₂, hdec, hfold, hmax, hstrict⟩ := ih c
      have hfold' : pickBest c (x :: rest) = b := by
        unfold pickBest
        rw [List.foldl_cons, if_neg hcx]
        exact hfold
      have hxc : x.confidence ≤ c.confidence := le_of_not_lt hcx
      have hcb : c.confidence ≤ b.confidence := hmax c (List.mem_cons_self _ _)
      cases l₁ with
      | nil =>
        rw [List.nil_append] at hdec
        injection hdec with hb hl
        refine ⟨[], b, x :: l₂, ?_, hfold', ?_, by simp⟩
        · rw [List.nil_append, ← hb, ← hl]
        · intro y hy
          rcases List.mem_cons.mp hy with rfl | hy'
          · exact hcb
          · rcases List.mem_cons.mp hy' with rfl | hy''
            · exact le_trans hxc hcb
            · exact hmax y (List.mem_cons_of_mem _ hy'')
      | cons hd l₁' =>
        rw [List.cons_append] at hdec
        injection hdec with hc hrest
        have hhd : hd.confidence < b.confidence :=
          hstrict hd (List.mem_cons_self _ _)
        have hcb' : c.confidence < b.confidence := hc ▸ hhd
        refine ⟨c :: x :: l₁', b, l₂, ?_, hfold', ?_, ?_⟩
        · rw [List.cons_append, List.cons_append, ← hrest]
        · intro y hy
          rcases List.mem_cons.mp hy with rfl | hy'
          · exact hcb
          · rcases List.mem_cons.mp hy' with rfl | hy''
            · exact le_trans hxc hcb
            · exact hmax y (hrest ▸ List.mem_cons_of_mem _ (hrest.symm ▸ hy''))
        · intro y hy
          rcases List.mem_cons.mp hy with rfl | hy'
          · exact hcb'
          · rcases List.mem_cons.mp hy' with rfl | hy''
            · exact lt_of_le_of_lt hxc hcb'
            · exact hstrict y (List.mem_cons_of_mem _ hy'')

/-- C3: among the non-empty-text candidates generated by one invocation (in
generation order), the executor's selection returns the text of the first
candidate attaining the maximum confidence; when no candidate has non-empty
text it returns the empty text, whose estimated confidence is 0. -/
theorem claim_C3_best_candidate_selection (outputs : List (Option String)) :
    (mkCandidates outputs = [] →
      selectBestText (mkCandidates outputs) = "" ∧
      estimate_ocr_confidence (selectBestText (mkCandidates outputs)) = 0) ∧
    (∀ c cs, mkCandidates outputs = c :: cs →
      ∃ l₁ b l₂, mkCandidates outputs = l₁ ++ b :: l₂ ∧
        selectBestText (mkCandidates outputs) = b.text ∧
        (∀ x ∈ mkCandidates outputs, x.confidence ≤ b.confidence) ∧
        (∀ x ∈ l₁, x.confidence < b.confidence)) := by
  constructor
  · intro h
    rw [h]
    refine ⟨rfl, ?_⟩
    unfold estimate_ocr_confidence
    rw [if_pos (show pyStrip (selectBestText []) = "" from rfl)]
  · intro c cs h
    rw [h]
    obtain ⟨l₁, b, l₂, hdec, hfold, hmax, hstrict⟩ := pickBest_spec cs c
    exact ⟨l₁, b, l₂, hdec, congrArg OCRCandidate.text hfold, hmax, hstrict⟩

/-- Witness for `claim_C3_best_candidate_selection` on a concrete generation
list (one raised attempt, one whitespace-only output, one real
candidate). -/
theorem claim_C3_witness :
    (mkCandidates [none, some "   ", some "Text one."] = [] →
      selectBestText (mkCandidates [none, some "   ", some "Text one."]) = "" ∧
      estimate_ocr_confidence
        (selectBestText (mkCandidates [none, some "   ", some "Text one."])) = 0) ∧
    (∀ c cs, mkCandidates [none, some "   ", some "Text one."] = c :: cs →
      ∃ l₁ b l₂, mkCandidates [none, some "   ", some "Text one."] = l₁ ++ b :: l₂ ∧
        selectBestText (mkCandidates [none, some "   ", some "Text one."]) = b.text ∧
        (∀ x ∈ mkCandidates [none, some "   ", some "Text one."],
          x.confidence ≤ b.confidence) ∧
        (∀ x ∈ l₁, x.confidence < b.confidence)) :=
  claim_C3_best_candidate_selection [none, some "   ", some "Text one."]

/-! ## `process_pdf` (lines 733-833) -/

/-- The `processing_stats` sub-record of the `process_pdf` result. -/
structure ProcessingStats where
  total_ocr_attempts : Nat
  successful_extractions : Nat
  average_confidence : ℚ
  enhancement_level : String

/-- The document-level result record of `process_pdf`. -/
structure PDFResult where
  source_file : String
  pages_processed : Nat
  pure_english_text : List String
  extracted_words : List String
  stats : ProcessingStats
  error : Option String

/-- The external collaborators `process_pdf` consults per page, abstracted:
`unitTexts` gives the OCR texts of a page's processing units (the whole page
for levels light/standard or when no region is detected, one text per
detected region in aggressive mode), as returned by
`extract_text_from_image`, which is total (`""` on its internal failures);
`pureEnglish` is `extract_pure_english_only` (the LLM cleanup collaborator —
total, returning `""` on its own exceptions); `tokenize` is NLTK
`word_tokenize`; `stopword` the NLTK English stop-word set; `detectEnglish`
the langdetect signal. -/
structure Collaborators (α : Type) where
  unitTexts : α → List String
  pureEnglish : String → String
  tokenize : String → List String
  stopword : String → Bool
  detectEnglish : String → Bool

/-- Embeds `extract_english_words(text)` (lines 383-409): `[]` when the text fails
`is_english_text`; otherwise the tokens of the lowered text matching
`^[a-z]+$`, of length ≥ 2 and not stop words. -/
def extract_english_words {α : Type} (C : Collaborators α) (text : String) : List String :=
  if is_english_text C.detectEnglish text then
    (C.tokenize (pyLower text)).filter (fun w =>
      (¬ w.data.isEmpty) && w.data.all (fun c => 'a' ≤ c && c ≤ 'z')
        && decide (2 ≤ w.length) && ¬ C.stopword w)
  else []

/-- Embeds `_extract_words_from_text(text)` (lines 835-845): split on newlines,
strip each line, collect the English words of every non-empty line that
passes the English filter. -/
def extract_words_from_text {α : Type} (C : Collaborators α) (text : String) : List String :=
  ((text.splitOn "\n").map pyStrip).foldl (fun acc line =>
    if line ≠ "" ∧ is_english_text C.detectEnglish line then
      acc ++ extract_english_words C line
    else acc) []

/-- The loop state of `process_pdf` (the fields of `result` mutated inside
the page loop). -/
structure PDFAccum where
  attempts : Nat
  successes : Nat
  passages : List String
  words : List String
  confidences : List ℚ

/-- One processing unit of the `process_pdf` loop (a whole page, or one
detected region in aggressive mode): count the OCR attempt; when the OCR
text is non-empty after strip, run the cleanup collaborator, record the
passage and its words when the cleanup output is non-empty, then count the
success and record the confidence of the raw OCR text. -/
def processUnit {α : Type} (C : Collaborators α) (acc : PDFAccum) (t : String) : PDFAccum :=
  let acc1 : PDFAccum := ⟨acc.attempts + 1, acc.successes, acc.passages, acc.words,
    acc.confidences⟩
  if pyStrip t ≠ "" then
    let pe := C.pureEnglish t
    let acc2 : PDFAccum :=
      if pe ≠ "" then
        ⟨acc1.attempts, acc1.successes, acc1.passages ++ [pe],
          acc1.words ++ extract_words_from_text C pe, acc1.confidences⟩
      else acc1
    ⟨acc2.attempts, acc2.successes + 1, acc2.passages, acc2.words,
      acc2.confidences ++ [estimate_ocr_confidence t]⟩
  else acc1

/-- The per-page body of the `process_pdf` loop: fold the units of the
page. -/
def processPage {α : Type} (C : Collaborators α) (acc : PDFAccum) (page : α) : PDFAccum :=
  (C.unitTexts page).foldl (processUnit C) acc

/-- Embeds `process_pdf(pdf_path, enhancement_level)`.  `convertResult` models
`convert_from_path` (the PDF-to-image collaborator), the only call of the
`try` block whose exceptions are not already absorbed by the callees (every
per-page helper catches its own); on an exception the record — still in its
initial state — is returned with `error` set to the exception text instead
of the exception propagating. -/
def process_pdf {α : Type} (C : Collaborators α) (source_file level : String)
    (convertResult : Except String (List α)) : PDFResult :=
  match convertResult with
  | Except.error e => ⟨source_file, 0, [], [], ⟨0, 0, 0, level⟩, some e⟩
  | Except.ok pages =>
    let st := pages.foldl (processPage C) ⟨0, 0, [], [], []⟩
    let avg : ℚ :=
      if st.confidences ≠ [] then st.confidences.sum / (st.confidences.length : ℚ) else 0
    ⟨source_file, pages.length, st.passages,
      deduplicate_words_with_frequency st.words,
      ⟨st.attempts, st.successes, avg, level⟩, none⟩

/-- A unit whose processing leaves the success count at zero changed neither
the passages, the words nor the confidences. -/
theorem processUnit_zero {α : Type} (C : Collaborators α) (acc : PDFAccum) (t : String)
    (h : (processUnit C acc t).successes = 0) :
    acc.successes = 0 ∧ (processUnit C acc t).passages = acc.passages ∧
      (processUnit C acc t).words = acc.words ∧
      (processUnit C acc t).confidences = acc.confidences := by
  unfold processUnit at h ⊢
  by_cases hs : pyStrip t ≠ ""
  · rw [if_pos hs] at h
    exfalso
    dsimp only at h
    omega
  · rw [if_neg hs] at h ⊢
    exact ⟨h, rfl, rfl, rfl⟩

/-- Folding units with a zero final success count accumulates nothing. -/
theorem foldl_processUnit_zero {α : Type} (C : Collaborators α) (ts : List String) :
    ∀ acc : PDFAccum, (ts.foldl (processUnit C) acc).successes = 0 →
      acc.successes = 0 ∧
      (ts.foldl (processUnit C) acc).passages = acc.passages ∧
      (ts.foldl (processUnit C) acc).words = acc.words ∧
      (ts.foldl (processUnit C) acc).confidences = acc.confidences := by
  induction ts with
  | nil => intro acc h; exact ⟨h, rfl, rfl, rfl⟩
  | cons t rest ih =>
    intro acc h
    rw [List.foldl_cons] at h ⊢
    obtain ⟨h1, h2, h3, h4⟩ := ih (processUnit C acc t) h
    obtain ⟨g1, g2, g3, g4⟩ := processUnit_zero C acc t h1
    exact ⟨g1, h2.trans g2, h3.trans g3, h4.trans g4⟩

/-- Folding pages with a zero final success count accumulates nothing. -/
theorem foldl_processPage_zero {α : Type} (C : Collaborators α) (pages : List α) :
    ∀ acc : PDFAccum, (pages.foldl (processPage C) acc).successes = 0 →
      acc.successes = 0 ∧
      (pages.foldl (processPage C) acc).passages = acc.passages ∧
      (pages.foldl (processPage C) acc).words = acc.words ∧
      (pages.foldl (processPage C) acc).confidences = acc.confidences := by
  induction pages with
  | nil => intro acc h; exact ⟨h, rfl, rfl, rfl⟩
  | cons p rest ih =>
    intro acc h
    rw [List.foldl_cons] at h ⊢
    obtain ⟨h1, h2, h3, h4⟩ := ih (processPage C acc p) h
    obtain ⟨g1, g2, g3, g4⟩ := foldl_processUnit_zero C (C.unitTexts p) acc h1
    exact ⟨g1, h2.trans g2, h3.trans g3, h4.trans g4⟩

/-- C9: `process_pdf` always yields a well-formed record and never lets an
exception escape.  (a) A run with zero successful extractions has empty
passage and word lists and average confidence 0.  (b) When the conversion
collaborator raises, the record is still returned, with the error field set
to the exception text and initial values elsewhere. -/
theorem claim_C9_always_returns_record {α : Type} (C : Collaborators α)
    (source_file level : String) (convertResult : Except String (List α)) :
    ((process_pdf C source_file level convertResult).stats.successful_extractions = 0 →
      (process_pdf C source_file level convertResult).pure_english_text = [] ∧
      (process_pdf C source_file level convertResult).extracted_words = [] ∧
      (process_pdf C source_file level convertResult).stats.average_confidence = 0) ∧
    (∀ e, convertResult = Except.error e →
      process_pdf C source_file level convertResult
        = ⟨source_file, 0, [], [], ⟨0, 0, 0, level⟩, some e⟩) := by
  rcases convertResult with e | pages
  · refine ⟨fun _ => ⟨rfl, rfl, rfl⟩, ?_⟩
    intro e' he
    injection he with he'
    rw [he']
    rfl
  · constructor
    · intro h
      unfold process_pdf at h ⊢
      dsimp only at h ⊢
      obtain ⟨h1, h2, h3, h4⟩ := foldl_processPage_zero C pages ⟨0, 0, [], [], []⟩ h
      refine ⟨h2, ?_, ?_⟩
      · rw [h3]
        rfl
      · rw [if_neg ?_]
        rw [h4]
        simp
    · intro e he
      exact Except.noConfusion he

/-- Witness for `claim_C9_always_returns_record`: a document whose PDF
decoding raises still yields the record, with the error field set. -/
theorem claim_C9_witness :
    process_pdf (⟨fun _ => [], fun t => t, fun _ => [], fun _ => false, fun _ => false⟩ :
        Collaborators Unit) "doc.pdf" "standard" (Except.error "decode failed")
      = ⟨"doc.pdf", 0, [], [], ⟨0, 0, 0, "standard"⟩, some "decode failed"⟩ :=
  (claim_C9_always_returns_record
    (⟨fun _ => [], fun t => t, fun _ => [], fun _ => false, fun _ => false⟩ :
      Collaborators Unit) "doc.pdf" "standard" (Except.error "decode failed")).2
    "decode failed" rfl
